import Mathlib

/-!
Shallow embedding of the sdsa.team maintenance scripts
(`scripts/validate.js`, `scripts/generate-checksums.js`, and the version
bump script) and proofs about the spec's claims.

Strings are manipulated the way the JavaScript source does: `jsIncludes`
models `String.prototype.includes`, `jsTrim` models `trim`, `splitNl`
models `split('\n')`, and so on.  File contents are byte lists; the
SHA-256 function is an explicit parameter (`hash`), since the scripts
treat `crypto.createHash('sha256')` as a black box.
-/

namespace Sdsa

/-- Character class matched by JavaScript `trim` / the regex `\s`
(restricted to the ASCII whitespace that can occur in text files). -/
def isJsSpace (c : Char) : Bool :=
  c == ' ' || c == '\t' || c == '\n' || c == '\r' || c == '\x0b' || c == '\x0c'

/-- `isPrefixOfChars p l` : does `l` start with `p`? -/
def isPrefixOfChars : List Char → List Char → Bool
  | [], _ => true
  | _ :: _, [] => false
  | a :: as, b :: bs => a == b && isPrefixOfChars as bs

/-- `includesChars sub l` : does `sub` occur as a contiguous run in `l`?
Models JavaScript `l.includes(sub)` (scan left to right). -/
def includesChars (sub : List Char) : List Char → Bool
  | [] => isPrefixOfChars sub []
  | c :: rest => isPrefixOfChars sub (c :: rest) || includesChars sub rest

/-- JavaScript `s.includes(sub)`. -/
def jsIncludes (s sub : String) : Bool :=
  includesChars sub.data s.data

/-- JavaScript `s.startsWith(p)` on character lists. -/
def startsWithChars (p l : List Char) : Bool := isPrefixOfChars p l

/-- JavaScript `s.endsWith(p)` on character lists. -/
def endsWithChars (p l : List Char) : Bool := isPrefixOfChars p.reverse l.reverse

/-- JavaScript `s.trim()` on character lists. -/
def jsTrim (l : List Char) : List Char :=
  ((l.dropWhile isJsSpace).reverse.dropWhile isJsSpace).reverse

/-- JavaScript `s.split(sep)` on character lists: the separator-delimited
chunks, keeping empty chunks. -/
def splitCh (sep : Char) : List Char → List (List Char)
  | [] => [[]]
  | c :: rest =>
    match splitCh sep rest with
    | [] => if c = sep then [[], []] else [[c]]
    | h :: t => if c = sep then [] :: h :: t else (c :: h) :: t

/-- JavaScript `content.split('\n')`. -/
def splitNl (l : List Char) : List (List Char) := splitCh '\n' l

/-- `List.findIdx` of the first `':'`; models `line.indexOf(':')` on lines
that are known to contain a colon. -/
def colonIdx (l : List Char) : Nat := l.findIdx (· == ':')

/-- Number of occurrences of a character, modelling
`(line.match(/'/g) || []).length`. -/
def countChar (c : Char) (l : List Char) : Nat := (l.filter (· == c)).length

/-- The `Line ${lineNum}: ${msg}` message template of `validateYAML`. -/
def mkLineErr (lineNum : Nat) (msg : String) : String :=
  "Line " ++ toString lineNum ++ ": " ++ msg

/-- The per-line syntax checks of `validateYAML` (`scripts/validate.js`
lines 13-55): tabs, indentation parity, space after colon, unclosed
quotes.  Empty lines and comment lines are skipped. -/
def lineErrs (lineNum : Nat) (line : List Char) : List String :=
  let t := jsTrim line
  if t = [] || startsWithChars ['#'] t then []
  else
    (if line.any (· == '\t') then
        [mkLineErr lineNum "YAML files should not contain tabs"] else [])
    ++
    (if (line.takeWhile isJsSpace).length % 2 ≠ 0 then
        [mkLineErr lineNum "Indentation should be in multiples of 2 spaces"] else [])
    ++
    (if line.any (· == ':') && !includesChars [':', ' '] line then
        (if colonIdx line < line.length - 1
            && line.get? (colonIdx line + 1) != some ' '
            && line.get? (colonIdx line + 1) != some '\n' then
          [mkLineErr lineNum "Space required after colon"] else [])
      else [])
    ++
    (if startsWithChars ['\''] t || endsWithChars ['\''] t
        || startsWithChars ['"'] t || endsWithChars ['"'] t then
        (if startsWithChars ['\''] t && countChar '\'' line % 2 ≠ 0 then
            [mkLineErr lineNum "Unclosed single quote"] else [])
        ++
        (if startsWithChars ['"'] t && countChar '"' line % 2 ≠ 0 then
            [mkLineErr lineNum "Unclosed double quote"] else [])
      else [])

/-- The five required top-level fields of a knowledge block. -/
def requiredFields : List String :=
  ["id", "title", "initial_question", "paths", "metadata"]

/-- The required-field checks of `validateYAML` (`scripts/validate.js`
lines 57-74): for files under `blocks/`, each field name followed by a
colon must occur somewhere in the raw content. -/
def fieldErrs (content filename : String) : List String :=
  if jsIncludes filename "blocks/" then
    (if !jsIncludes content "id:" then ["Missing required field: id"] else [])
    ++ (if !jsIncludes content "title:" then ["Missing required field: title"] else [])
    ++ (if !jsIncludes content "initial_question:" then
          ["Missing required field: initial_question"] else [])
    ++ (if !jsIncludes content "paths:" then ["Missing required field: paths"] else [])
    ++ (if !jsIncludes content "metadata:" then ["Missing required field: metadata"] else [])
  else []

/-- `validateYAML(content, filename)` from `scripts/validate.js`:
the per-line syntax errors in line order, followed by the
required-field errors. -/
def validateYAML (content filename : String) : List String :=
  ((splitNl content.data).enum.map (fun p => lineErrs (p.1 + 1) p.2)).flatten
    ++ fieldErrs content filename

example : validateYAML "id: x\ntitle: t" "a.yaml" = [] := by decide

example :
    validateYAML "id: bar\ntitle: t\ninitial_question: q\npaths: x\nmetadata: m"
      "knowledge/blocks/foo.yaml" = [] := by decide

example :
    validateYAML "a: [1, 2" "blocks/x.yaml" =
      ["Missing required field: id", "Missing required field: title",
       "Missing required field: initial_question", "Missing required field: paths",
       "Missing required field: metadata"] := by decide

example : validateYAML "\tid:x" "blocks/x.yaml" =
    [mkLineErr 1 "YAML files should not contain tabs",
     mkLineErr 1 "Indentation should be in multiples of 2 spaces",
     mkLineErr 1 "Space required after colon",
     "Missing required field: title", "Missing required field: initial_question",
     "Missing required field: paths", "Missing required field: metadata"] := by decide

/-!
## Checksum generator (`scripts/generate-checksums.js`)

A directory tree is modelled explicitly: a directory holds its entries in
the order `fs.readdirSync` returns them (the script applies no sorting).
File contents are byte lists; `hash` stands for the hex SHA-256 digest.
-/

/-- A filesystem entry: a file with raw byte content, or a directory whose
entries appear in `readdirSync` order. -/
inductive FsEntry where
  | file (content : List Nat)
  | dir (entries : List (String × FsEntry))
deriving Repr

/-- `path.join(prefix, file)` as used by `scanDirectory` (the `prefix`
is empty only at the root, in which case the name is taken as-is). -/
def jsJoin (pre name : String) : String :=
  if pre = "" then name else pre ++ "/" ++ name

/-- One record of `results.files` in `scanDirectory`. -/
structure FileInfo where
  path : String
  checksum : String
  size : Nat
deriving Repr, DecidableEq

/-- The `results` object accumulated by `scanDirectory`. -/
structure ScanResults where
  checksums : List (String × String)
  files : List FileInfo
  totalSize : Nat
  fileCount : Nat
deriving Repr, DecidableEq

/-- JavaScript object property write `o[k] = v`: overwrite the existing
key in place, or append the key at the end. -/
def jsSetKey (l : List (String × α)) (k : String) (v : α) : List (String × α) :=
  match l with
  | [] => [(k, v)]
  | (k0, v0) :: rest =>
    if k0 = k then (k0, v) :: rest else (k0, v0) :: jsSetKey rest k v

/-- JavaScript object property read `o[k]`. -/
def jsGetKey (l : List (String × α)) (k : String) : Option α :=
  match l with
  | [] => none
  | (k0, v0) :: rest => if k0 = k then some v0 else jsGetKey rest k

/-- The recursive `walk` of `scanDirectory` (`generate-checksums.js`
lines 40-64): depth-first over the entries in listing order, recursing
into directories and recording every file whose *name* is not in
`excludeFiles`.  `hash` is the SHA-256 hex digest function. -/
def walkList (hash : List Nat → String) (excludeFiles : List String) :
    List (String × FsEntry) → String → ScanResults → ScanResults
  | [], _, acc => acc
  | (name, .file c) :: rest, pre, acc =>
    if name ∈ excludeFiles then walkList hash excludeFiles rest pre acc
    else
      walkList hash excludeFiles rest pre
        { checksums := jsSetKey acc.checksums (jsJoin pre name) ("sha256:" ++ hash c)
          files := acc.files ++ [⟨jsJoin pre name, hash c, c.length⟩]
          totalSize := acc.totalSize + c.length
          fileCount := acc.fileCount + 1 }
  | (name, .dir sub) :: rest, pre, acc =>
    walkList hash excludeFiles rest pre
      (walkList hash excludeFiles sub (jsJoin pre name) acc)
termination_by l _ _ => sizeOf l
decreasing_by all_goals (simp_wf; try omega)

/-- `scanDirectory(dir, basePath, excludeFiles)` from
`generate-checksums.js` lines 32-68. -/
def scanDirectory (hash : List Nat → String) (entries : List (String × FsEntry))
    (basePath : String) (excludeFiles : List String) : ScanResults :=
  walkList hash excludeFiles entries basePath
    { checksums := [], files := [], totalSize := 0, fileCount := 0 }

/-- Specification-side flattening of a tree: the `(relative path, bytes)`
pairs of the non-excluded files, in listing (readdir) order.  Used to
state what `scanDirectory` records. -/
def flattenFiles (excludeFiles : List String) :
    List (String × FsEntry) → String → List (String × List Nat)
  | [], _ => []
  | (name, .file c) :: rest, pre =>
    (if name ∈ excludeFiles then [] else [(jsJoin pre name, c)])
      ++ flattenFiles excludeFiles rest pre
  | (name, .dir sub) :: rest, pre =>
    flattenFiles excludeFiles sub (jsJoin pre name)
      ++ flattenFiles excludeFiles rest pre
termination_by l _ => sizeOf l
decreasing_by all_goals (simp_wf; try omega)

/-!
## Manifest update (`generate-checksums.js` lines 70-133)
-/

/-- `formatSize(bytes)`.  `Math.round(bytes/1024)` is computed on an
exactly representable binary fraction, so it equals
`⌊(bytes + 512) / 1024⌋`; likewise for megabytes. -/
def formatSize (bytes : Nat) : String :=
  if bytes < 1024 then toString bytes ++ "B"
  else if bytes < 1024 * 1024 then toString ((bytes + 512) / 1024) ++ "KB"
  else toString ((bytes + 524288) / 1048576) ++ "MB"

/-- The three buckets produced by `categorizeFiles`. -/
structure Categories where
  blocks : List FileInfo
  resources : List FileInfo
  other : List FileInfo
deriving Repr, DecidableEq

/-- `categorizeFiles(files)` (`generate-checksums.js` lines 70-88):
partition the file records by path prefix, keeping their order. -/
def categorizeFiles (files : List FileInfo) : Categories :=
  { blocks := files.filter (fun f => startsWithChars "blocks/".data f.path.data)
    resources := files.filter (fun f =>
      !startsWithChars "blocks/".data f.path.data
        && startsWithChars "resources/".data f.path.data)
    other := files.filter (fun f =>
      !startsWithChars "blocks/".data f.path.data
        && !startsWithChars "resources/".data f.path.data) }

/-- Node `path.basename(p, ext)`: the part after the last `/`, with a
trailing `ext` stripped unless the whole base name equals `ext`. -/
def jsBasename (p ext : String) : String :=
  let base := (splitCh '/' p.data).getLastD []
  if endsWithChars ext.data base = true ∧ base ≠ ext.data then
    ⟨base.take (base.length - ext.data.length)⟩
  else ⟨base⟩

/-- The per-block record kept under `manifest.blocks`.  JSON objects are
open, so every field the repository's manifests ever carry is optional. -/
structure BlockInfo where
  checksum : Option String := none
  size : Option String := none
  version : Option String := none
  updated : Option String := none
deriving Repr, DecidableEq

/-- The `statistics` object written by `updateManifest`. -/
structure Statistics where
  totalFiles : Nat
  totalSize : String
  blocks : Nat
  resources : Nat
  lastUpdated : String
deriving Repr, DecidableEq

/-- The manifest JSON document.  Fields that a loaded manifest may lack
are `Option`s. -/
structure Manifest where
  version : Option String := none
  released : Option String := none
  checksums : List (String × String) := []
  size : Option String := none
  statistics : Option Statistics := none
  blocks : Option (List (String × BlockInfo)) := none
deriving Repr, DecidableEq

/-- The block-update loop body of `updateManifest` (lines 121-128): ensure
the key exists (creating an empty object if not), then set its `checksum`
and `size` fields, leaving every other field as it was. -/
def updateBlockEntry (bs : List (String × BlockInfo)) (block : FileInfo) :
    List (String × BlockInfo) :=
  let blockName := jsBasename block.path ".yaml"
  let bs' := if (jsGetKey bs blockName).isNone then jsSetKey bs blockName {} else bs
  match jsGetKey bs' blockName with
  | none => bs'
  | some bi =>
    jsSetKey bs' blockName
      { bi with checksum := some block.checksum, size := some (formatSize block.size) }

/-- `updateManifest(results)` (`generate-checksums.js` lines 90-133).
`prev` is the parsed manifest when `manifest.json` exists, `now` is the
current `new Date().toISOString()`. -/
def updateManifest (prev : Option Manifest) (results : ScanResults) (now : String) :
    Manifest :=
  let manifest : Manifest :=
    match prev with
    | some m => m
    | none => { version := some "0.0.0", released := some now }
  let categories := categorizeFiles results.files
  let manifest :=
    { manifest with
        checksums := results.checksums
        size := some (formatSize results.totalSize)
        statistics := some
          { totalFiles := results.fileCount
            totalSize := formatSize results.totalSize
            blocks := categories.blocks.length
            resources := categories.resources.length
            lastUpdated := now } }
  let blocks0 := manifest.blocks.getD []
  { manifest with blocks := some (categories.blocks.foldl updateBlockEntry blocks0) }

/-!
## Version bump script (`scripts/bump-version.js`)

`generateVersion` takes today's date components and the list of git tags
(`getGitTags` shells out to `git tag -l`, so the tag list is an input).
-/

/-- `String(n).padStart(2, '0')` for the month/day components. -/
def pad2 (n : Nat) : String :=
  if n < 10 then "0" ++ toString n else toString n

/-- Greedy match of the regex `v\d+\.\d+\.\d+\.(\d+)` anchored at the
start of `cs`, returning the capture group.  Greedy matching without
backtracking is exact here: a maximal digit run is never followed by a
digit, so shrinking a `\d+` group can never make a following `\.` match. -/
def matchPatchAt (cs : List Char) : Option (List Char) :=
  match cs with
  | 'v' :: r0 =>
    let d1 := r0.takeWhile Char.isDigit
    match r0.dropWhile Char.isDigit with
    | '.' :: r2 =>
      if d1 = [] then none else
      let d2 := r2.takeWhile Char.isDigit
      match r2.dropWhile Char.isDigit with
      | '.' :: r4 =>
        if d2 = [] then none else
        let d3 := r4.takeWhile Char.isDigit
        match r4.dropWhile Char.isDigit with
        | '.' :: r6 =>
          if d3 = [] then none else
          let d4 := r6.takeWhile Char.isDigit
          if d4 = [] then none else some d4
        | _ => none
      | _ => none
    | _ => none
  | _ => none

/-- `tag.match(/v\d+\.\d+\.\d+\.(\d+)/)`: the leftmost match wins. -/
def findPatch : List Char → Option (List Char)
  | [] => none
  | c :: rest =>
    match matchPatchAt (c :: rest) with
    | some d => some d
    | none => findPatch rest

/-- `parseInt(ds, 10)` on a nonempty run of decimal digits. -/
def digitsToNat (ds : List Char) : Nat :=
  ds.foldl (fun acc c => 10 * acc + (c.toNat - '0'.toNat)) 0

/-- The `forEach` body of `generateVersion`'s max-patch search: parse the
tag with the regex; on a match, keep the larger of the parsed patch and
the running maximum (which starts at `-1`). -/
def maxPatchStep (m : Int) (t : String) : Int :=
  match findPatch t.data with
  | some ds =>
    let patch : Int := (digitsToNat ds : Nat)
    if patch > m then patch else m
  | none => m

/-- `generateVersion()` from the version bump script: filter the tags to
today's (`tag.includes('v' + baseVersion + '.')`), then return
`baseVersion.(maxPatch + 1)`, or `baseVersion.0` when no tag matches. -/
def generateVersion (year month day : Nat) (tags : List String) : String :=
  let baseVersion := toString year ++ "." ++ pad2 month ++ "." ++ pad2 day
  let todayTags := tags.filter (fun t => jsIncludes t ("v" ++ baseVersion ++ "."))
  if todayTags = [] then baseVersion ++ ".0"
  else
    let maxPatch : Int := todayTags.foldl maxPatchStep (-1)
    baseVersion ++ "." ++ toString (maxPatch + 1)

example : generateVersion 2024 12 15 [] = "2024.12.15.0" := by decide

example : generateVersion 2024 12 15 ["v2024.12.15.0", "v2024.12.15.1"] =
    "2024.12.15.2" := by decide

/-- The spec's derivation of the next patch number: "one greater than the
maximum found (or `0` if none exist for today)". -/
def specNextPatch (patches : List Nat) : Nat :=
  match patches with
  | [] => 0
  | _ => patches.foldl Nat.max 0 + 1

/-- The smallest non-negative integer not occurring in `used` (the claim's
wording of the patch rule). -/
def smallestUnusedPatch (used : List Nat) : Nat :=
  (((List.range (used.length + 1)).filter (fun n => !used.contains n))).headD 0

/-!
## Validator entry point (`scripts/validate.js` lines 80-164)

The filesystem interactions of `main` are inputs: the directory listing
of `knowledge/blocks` (when the directory exists) and a partial map from
paths to file contents.
-/

/-- The filesystem as the validator sees it. -/
structure ValEnv where
  blocksListing : Option (List String)
  readFile : String → Option String

/-- `getAllYamlFiles()`: the `.yaml`/`.yml` entries of `knowledge/blocks`,
prefixed with `knowledge/blocks/`. -/
def getAllYamlFiles (env : ValEnv) : List String :=
  match env.blocksListing with
  | none => []
  | some listing =>
    (listing.filter (fun f =>
        endsWithChars ".yaml".data f.data || endsWithChars ".yml".data f.data)).map
      (fun f => "knowledge/blocks/" ++ f)

/-- The per-file result record of `validateFile`. -/
structure ValResult where
  filename : String
  valid : Bool
  errors : List String
deriving Repr, DecidableEq

/-- `validateFile(filename)`: a missing file yields a single
`File not found` error; otherwise the `validateYAML` errors decide
validity. -/
def validateFile (env : ValEnv) (filename : String) : ValResult :=
  match env.readFile filename with
  | none => ⟨filename, false, ["File not found: " ++ filename]⟩
  | some content =>
    let errors := validateYAML content filename
    ⟨filename, errors.isEmpty, errors⟩

/-- The list of per-file results `main` accumulates (empty when invoked
with no arguments and no YAML files exist, since `main` exits early). -/
def mainResults (env : ValEnv) (args : List String) : List ValResult :=
  match args with
  | [] => (getAllYamlFiles env).map (validateFile env)
  | a :: _ => [validateFile env a]

/-- The process exit code of `main`: `0` from the early "no YAML files"
exit, otherwise `hasErrors ? 1 : 0`. -/
def mainExit (env : ValEnv) (args : List String) : Nat :=
  if args = [] ∧ getAllYamlFiles env = [] then 0
  else if (mainResults env args).any (fun r => !r.valid) then 1 else 0

/-!
## Helper lemmas about `validateYAML`
-/

theorem mem_ite_singleton_nil {α : Type} {c : Prop} [Decidable c] {e x : α} :
    (e ∈ if c then [x] else []) ↔ c ∧ e = x := by
  split <;> simp_all

/-- Every per-line error carries the `Line ${n}: ` prefix of its line. -/
theorem lineErrs_shape {n : Nat} {l : List Char} {e : String}
    (h : e ∈ lineErrs n l) : ∃ m, e = mkLineErr n m := by
  unfold lineErrs at h
  simp only [List.mem_append, mem_ite_singleton_nil] at h
  aesop

/-- A line error is never a missing-required-field message. -/
theorem mkLineErr_ne_missing (n : Nat) (m f : String) :
    mkLineErr n m ≠ "Missing required field: " ++ f := by
  intro h
  rw [String.ext_iff] at h
  simp only [mkLineErr, String.data_append] at h
  exact absurd (List.head_eq_of_cons_eq h) (by decide)

/-- A missing-required-field message never comes from the per-line scan. -/
theorem missing_not_mem_lineErrors (content f : String) :
    "Missing required field: " ++ f ∉
      ((splitNl content.data).enum.map (fun p => lineErrs (p.1 + 1) p.2)).flatten := by
  intro h
  simp only [List.mem_flatten, List.mem_map] at h
  obtain ⟨-, ⟨⟨i, l⟩, -, rfl⟩, hmem⟩ := h
  obtain ⟨m, hm⟩ := lineErrs_shape hmem
  exact mkLineErr_ne_missing _ m f hm.symm

/-- Membership in the required-field error list, field by field. -/
theorem mem_fieldErrs_iff {content filename f : String} (hf : f ∈ requiredFields) :
    ("Missing required field: " ++ f ∈ fieldErrs content filename) ↔
      (jsIncludes filename "blocks/" = true ∧
        jsIncludes content (f ++ ":") = false) := by
  fin_cases hf <;>
    · unfold fieldErrs
      cases hb : jsIncludes filename "blocks/" <;>
        simp +decide [hb, List.mem_append, mem_ite_singleton_nil]

/-- Every required-field error names one of the five required fields. -/
theorem fieldErrs_shape {content filename e : String} (h : e ∈ fieldErrs content filename) :
    ∃ f, f ∈ requiredFields ∧ e = "Missing required field: " ++ f := by
  unfold fieldErrs at h
  split at h
  · simp only [List.mem_append, mem_ite_singleton_nil] at h
    rcases h with ((((⟨-, h⟩ | ⟨-, h⟩) | ⟨-, h⟩) | ⟨-, h⟩) | ⟨-, h⟩)
    · exact ⟨"id", by decide, by rw [h]; decide⟩
    · exact ⟨"title", by decide, by rw [h]; decide⟩
    · exact ⟨"initial_question", by decide, by rw [h]; decide⟩
    · exact ⟨"paths", by decide, by rw [h]; decide⟩
    · exact ⟨"metadata", by decide, by rw [h]; decide⟩
  · simp at h

/-!
## Claim theorems about the validator
-/

/-- C9: `validateYAML` reports `Missing required field: f` for a required
field `f` exactly when the filename contains the substring `blocks/` and
the raw content does not contain the substring `f:`; consequently a file
whose name lacks `blocks/` is never reported as missing a field, and an
occurrence of `id:` anywhere (even in a comment) counts as presence. -/
theorem validateYAML_missing_field_iff (content filename f : String)
    (hf : f ∈ requiredFields) :
    ("Missing required field: " ++ f ∈ validateYAML content filename) ↔
      (jsIncludes filename "blocks/" = true ∧
        jsIncludes content (f ++ ":") = false) := by
  unfold validateYAML
  rw [List.mem_append]
  constructor
  · rintro (h | h)
    · exact absurd h (missing_not_mem_lineErrors content f)
    · exact (mem_fieldErrs_iff hf).mp h
  · intro h
    exact Or.inr ((mem_fieldErrs_iff hf).mpr h)

/-- Witness for C9 at a concrete input: the empty content in a `blocks/`
file is missing the `id` field. -/
theorem validateYAML_missing_field_iff_witness :
    ("Missing required field: " ++ "id" ∈ validateYAML "" "blocks/a.yaml") ↔
      (jsIncludes "blocks/a.yaml" "blocks/" = true ∧
        jsIncludes "" ("id" ++ ":") = false) :=
  validateYAML_missing_field_iff "" "blocks/a.yaml" "id" (by decide)

/-- C3 counterexample: a `blocks/` file whose declared `id` (`bar`) differs
from its base name (`foo`) validates with no violations at all — in
particular no id-mismatch violation is reported, refuting the claim that
exactly one is. -/
theorem validateYAML_id_mismatch_counterexample :
    validateYAML "id: bar\ntitle: t\ninitial_question: q\npaths: x\nmetadata: m"
      "knowledge/blocks/foo.yaml" = [] := by decide

/-- C3 amended: `validateYAML` never compares the declared `id` with the
file's base name; its result depends on the filename only through whether
it contains the substring `blocks/`, so changing the base name (and hence
any id/base-name mismatch) cannot change the reported violations. -/
theorem validateYAML_ignores_basename (content f1 f2 : String)
    (h : jsIncludes f1 "blocks/" = jsIncludes f2 "blocks/") :
    validateYAML content f1 = validateYAML content f2 := by
  unfold validateYAML fieldErrs
  rw [h]

/-- Witness for the amended C3: renaming `foo.yaml` to `bar.yaml` leaves
the validator output unchanged. -/
theorem validateYAML_ignores_basename_witness :
    validateYAML "id: bar" "knowledge/blocks/foo.yaml" =
      validateYAML "id: bar" "knowledge/blocks/bar.yaml" :=
  validateYAML_ignores_basename "id: bar" "knowledge/blocks/foo.yaml"
    "knowledge/blocks/bar.yaml" (by decide)

/-- C6 counterexample: the content `a: [1, 2` is not parsable YAML (an
unclosed flow sequence), yet the validator reports five field-presence
violations for the file and no parse violation, refuting the claim that a
parse violation is reported and field-presence checks are suppressed. -/
theorem validateYAML_unparsable_counterexample :
    validateYAML "a: [1, 2" "blocks/x.yaml" =
      ["Missing required field: id", "Missing required field: title",
       "Missing required field: initial_question", "Missing required field: paths",
       "Missing required field: metadata"] := by decide

/-- C6 amended: the validator never parses the file and has no parse
violation category: every reported violation is either a per-line syntax
message (`Line n: ...`) or a missing-required-field message, and the
field-presence checks run regardless of whether the content is parsable. -/
theorem validateYAML_error_shapes (content filename : String) :
    ∀ e ∈ validateYAML content filename,
      (∃ n m, e = mkLineErr n m) ∨
        (∃ f, f ∈ requiredFields ∧ e = "Missing required field: " ++ f) := by
  intro e h
  rcases List.mem_append.mp h with h | h
  · left
    simp only [List.mem_flatten, List.mem_map] at h
    obtain ⟨-, ⟨⟨i, l⟩, -, rfl⟩, hmem⟩ := h
    obtain ⟨m, hm⟩ := lineErrs_shape hmem
    exact ⟨i + 1, m, hm⟩
  · right
    exact fieldErrs_shape h

/-- Witness for the amended C6 at a concrete input. -/
theorem validateYAML_error_shapes_witness :
    (∃ n m, ("Missing required field: id" : String) = mkLineErr n m) ∨
      (∃ f, f ∈ requiredFields ∧
        ("Missing required field: id" : String) = "Missing required field: " ++ f) :=
  validateYAML_error_shapes "\t" "blocks/x.yaml" "Missing required field: id" (by decide)

/-- `validateFile` marks a file valid exactly when its error list is
empty (a missing file contributes a `File not found` error). -/
theorem validateFile_valid_iff (env : ValEnv) (fn : String) :
    (validateFile env fn).valid = true ↔ (validateFile env fn).errors = [] := by
  unfold validateFile
  cases env.readFile fn <;> simp [List.isEmpty_iff]

/-- C8: the validator process exits with code `0` exactly when every
validated file produced zero violations; otherwise the exit code is
nonzero (here `1`). -/
theorem mainExit_zero_iff (env : ValEnv) (args : List String) :
    mainExit env args = 0 ↔ ∀ r ∈ mainResults env args, r.errors = [] := by
  have hval : ∀ r ∈ mainResults env args, (r.valid = true ↔ r.errors = []) := by
    intro r hr
    have hex : ∃ fn, r = validateFile env fn := by
      cases args with
      | nil =>
        simp only [mainResults, List.mem_map] at hr
        obtain ⟨fn, -, rfl⟩ := hr
        exact ⟨fn, rfl⟩
      | cons a rest =>
        simp only [mainResults, List.mem_singleton] at hr
        exact ⟨a, hr⟩
    obtain ⟨fn, rfl⟩ := hex
    exact validateFile_valid_iff env fn
  unfold mainExit
  split
  · rename_i hc
    obtain ⟨ha, hf⟩ := hc
    subst ha
    simp [mainResults, hf]
  · constructor
    · intro h0 r hr
      have hfalse : (mainResults env args).any (fun r => !r.valid) = false := by
        cases hany : (mainResults env args).any (fun r => !r.valid)
        · rfl
        · rw [if_pos hany] at h0
          exact absurd h0 one_ne_zero
      have hv := List.any_eq_false.mp hfalse r hr
      simp only [Bool.not_eq_true', Bool.not_eq_false] at hv
      exact (hval r hr).mp hv
    · intro hall
      have hfalse : (mainResults env args).any (fun r => !r.valid) = false := by
        rw [List.any_eq_false]
        intro r hr
        simp only [Bool.not_eq_true', Bool.not_eq_false]
        exact (hval r hr).mpr (hall r hr)
      simp [hfalse]

/-!
## Claim theorems about `updateManifest`
-/

example : jsBasename "blocks/e2e-testing.yaml" ".yaml" = "e2e-testing" := by decide
example : jsBasename "blocks/.yaml" ".yaml" = ".yaml" := by decide

/-- Reading back through a JavaScript property write. -/
theorem jsGetKey_jsSetKey (l : List (String × α)) (k p : String) (v : α) :
    jsGetKey (jsSetKey l k v) p = if k = p then some v else jsGetKey l p := by
  induction l with
  | nil => simp [jsSetKey, jsGetKey]
  | cons hd tl ih =>
    obtain ⟨k0, v0⟩ := hd
    by_cases h0 : k0 = k
    · subst h0
      by_cases hp : k0 = p <;> simp [jsSetKey, jsGetKey, hp]
    · by_cases hp : k0 = p
      · subst hp
        simp [jsSetKey, jsGetKey, h0, Ne.symm h0]
      · simp [jsSetKey, jsGetKey, h0, hp, ih]

/-- What one iteration of the block-update loop does to a lookup: the
block named by the processed file gets its prior record (or a fresh empty
one) with only `checksum` and `size` overwritten; every other key is
untouched. -/
theorem updateBlockEntry_getKey (bs : List (String × BlockInfo)) (b : FileInfo)
    (name : String) :
    jsGetKey (updateBlockEntry bs b) name =
      if jsBasename b.path ".yaml" = name then
        some { (jsGetKey bs name).getD {} with
                checksum := some b.checksum, size := some (formatSize b.size) }
      else jsGetKey bs name := by
  unfold updateBlockEntry
  by_cases hn : jsGetKey bs (jsBasename b.path ".yaml") = none
  · simp only [hn, Option.isNone_none, if_pos rfl, jsGetKey_jsSetKey, if_pos trivial]
    by_cases hp : jsBasename b.path ".yaml" = name
    · subst hp
      simp [jsGetKey_jsSetKey, hn]
    · simp [jsGetKey_jsSetKey, hp]
  · obtain ⟨bi, hbi⟩ := Option.ne_none_iff_exists'.mp hn
    simp only [hbi, Option.isNone_some, Bool.false_eq_true, if_false, jsGetKey_jsSetKey]
    by_cases hp : jsBasename b.path ".yaml" = name
    · subst hp
      simp [hbi]
    · simp [hp]

/-- Folding the block-update loop never loses a key. -/
theorem foldl_updateBlockEntry_isSome (L : List FileInfo) :
    ∀ bs name, (jsGetKey bs name).isSome = true →
      (jsGetKey (L.foldl updateBlockEntry bs) name).isSome = true := by
  induction L with
  | nil => intro bs name h; exact h
  | cons b L ih =>
    intro bs name h
    refine ih _ name ?_
    rw [updateBlockEntry_getKey]
    split
    · rfl
    · exact h

/-- Folding the block-update loop never touches `version` or `updated`:
keys already present keep both fields verbatim, keys created by the loop
carry neither, and keys outside the loop stay absent. -/
theorem foldl_updateBlockEntry_version_updated (L : List FileInfo) :
    ∀ bs name,
      (jsGetKey (L.foldl updateBlockEntry bs) name).map
          (fun x => (x.version, x.updated)) =
        match jsGetKey bs name with
        | some bi => some (bi.version, bi.updated)
        | none =>
          if name ∈ L.map (fun blk => jsBasename blk.path ".yaml") then
            some (none, none)
          else none := by
  induction L with
  | nil =>
    intro bs name
    cases h : jsGetKey bs name <;> simp [h]
  | cons b L ih =>
    intro bs name
    rw [List.foldl_cons, ih]
    rw [updateBlockEntry_getKey]
    by_cases hp : jsBasename b.path ".yaml" = name
    · rw [if_pos hp]
      cases h : jsGetKey bs name <;> simp [h, hp]
    · rw [if_neg hp]
      cases h : jsGetKey bs name <;> simp [h, hp, Ne.symm hp]

/-- C7: on a run against an existing manifest, `updateManifest` replaces
`checksums`, `size` and `statistics` wholesale with the freshly computed
values and leaves `version` (and `released`) exactly as loaded. -/
theorem updateManifest_frame (prev : Manifest) (results : ScanResults) (now : String) :
    (updateManifest (some prev) results now).version = prev.version ∧
      (updateManifest (some prev) results now).released = prev.released ∧
      (updateManifest (some prev) results now).checksums = results.checksums ∧
      (updateManifest (some prev) results now).size =
        some (formatSize results.totalSize) ∧
      (updateManifest (some prev) results now).statistics = some
        { totalFiles := results.fileCount
          totalSize := formatSize results.totalSize
          blocks := (categorizeFiles results.files).blocks.length
          resources := (categorizeFiles results.files).resources.length
          lastUpdated := now } :=
  ⟨rfl, rfl, rfl, rfl, rfl⟩

/-- C10: `updateManifest` never removes an entry from `blocks`: any key
present in the loaded manifest's `blocks` mapping is still present
afterwards, whatever the scan results contain. -/
theorem updateManifest_blocks_monotone (prev : Manifest) (results : ScanResults)
    (now : String) (name : String)
    (h : (jsGetKey (prev.blocks.getD []) name).isSome = true) :
    (jsGetKey ((updateManifest (some prev) results now).blocks.getD []) name).isSome
      = true := by
  unfold updateManifest
  exact foldl_updateBlockEntry_isSome _ _ name h

/-- A previous manifest used by the C10 witness and the C4 counterexample:
one block `x` at version `1.0.0` with a stale digest. -/
def prevM : Manifest :=
  { version := some "2024.12.15.0"
    released := some "2024-12-15T00:00:00Z"
    checksums := [("blocks/x.yaml", "sha256:old")]
    size := some "1B"
    statistics := none
    blocks := some [("x",
      { checksum := some "old", size := some "1B",
        version := some "1.0.0", updated := some "2024-01-01T00:00:00Z" })] }

/-- Scan results used by the C10 witness and the C4 counterexample: block
`x` now hashes to a new digest, and block `y` appears for the first time. -/
def resultsX : ScanResults :=
  { checksums := [("blocks/x.yaml", "sha256:new"), ("blocks/y.yaml", "sha256:fresh")]
    files := [⟨"blocks/x.yaml", "new", 3⟩, ⟨"blocks/y.yaml", "fresh", 4⟩]
    totalSize := 7
    fileCount := 2 }

/-- Witness for C10 at a concrete input. -/
theorem updateManifest_blocks_monotone_witness :
    (jsGetKey ((updateManifest (some prevM) resultsX "2025-01-01T00:00:00Z").blocks.getD [])
      "x").isSome = true :=
  updateManifest_blocks_monotone prevM resultsX "2025-01-01T00:00:00Z" "x" (by decide)

/-- C4 counterexample: block `x`'s digest changed (`old` → `new`), yet its
recorded version stays `1.0.0` (the claim requires `1.0.1`) and its
`updated` timestamp is not refreshed; first-seen block `y` is created with
no version field at all (the claim requires seeding at `1.0.0`). -/
theorem updateManifest_no_version_bump_counterexample :
    (jsGetKey ((updateManifest (some prevM) resultsX "2025-01-01T00:00:00Z").blocks.getD [])
        "x" = some { checksum := some "new", size := some "3B",
                     version := some "1.0.0", updated := some "2024-01-01T00:00:00Z" }) ∧
    (jsGetKey ((updateManifest (some prevM) resultsX "2025-01-01T00:00:00Z").blocks.getD [])
        "y" = some { checksum := some "fresh", size := some "4B",
                     version := none, updated := none }) := by
  decide

/-- C4 amended: `updateManifest` maintains no per-block versioning at all:
for every block key, a pre-existing entry keeps its `version` and
`updated` fields verbatim (whether or not its digest changed), an entry
created in this run carries neither field, and no other keys appear. -/
theorem updateManifest_version_untouched (prev : Manifest) (results : ScanResults)
    (now : String) (name : String) :
    (jsGetKey ((updateManifest (some prev) results now).blocks.getD []) name).map
        (fun x => (x.version, x.updated)) =
      match jsGetKey (prev.blocks.getD []) name with
      | some bi => some (bi.version, bi.updated)
      | none =>
        if name ∈ (categorizeFiles results.files).blocks.map
            (fun blk => jsBasename blk.path ".yaml") then some (none, none)
        else none := by
  unfold updateManifest
  exact foldl_updateBlockEntry_version_updated _ _ name

/-!
## Claim theorems about `scanDirectory`
-/

/-- Lookup through a list append. -/
theorem jsGetKey_append (l1 l2 : List (String × α)) (k : String) :
    jsGetKey (l1 ++ l2) k =
      match jsGetKey l1 k with
      | some v => some v
      | none => jsGetKey l2 k := by
  induction l1 with
  | nil => simp [jsGetKey]
  | cons hd tl ih =>
    obtain ⟨k0, v0⟩ := hd
    by_cases h0 : k0 = k <;> simp [jsGetKey, h0, ih]

/-- Writing a key that is not yet present appends it. -/
theorem jsSetKey_fresh (l : List (String × α)) (k : String) (v : α)
    (h : jsGetKey l k = none) : jsSetKey l k v = l ++ [(k, v)] := by
  induction l with
  | nil => rfl
  | cons hd tl ih =>
    obtain ⟨k0, v0⟩ := hd
    by_cases h0 : k0 = k
    · rw [jsGetKey, if_pos h0] at h
      exact absurd h (by simp)
    · rw [jsGetKey, if_neg h0] at h
      rw [jsSetKey, if_neg h0, ih h]
      rfl

/-- Lookup in the digest-formatted association list. -/
theorem jsGetKey_map_sha (hash : List Nat → String) (l : List (String × List Nat))
    (k : String) :
    jsGetKey (l.map (fun pc => (pc.1, "sha256:" ++ hash pc.2))) k =
      (jsGetKey l k).map (fun c => "sha256:" ++ hash c) := by
  induction l with
  | nil => simp [jsGetKey]
  | cons hd tl ih =>
    obtain ⟨k0, v0⟩ := hd
    by_cases h0 : k0 = k <;> simp [jsGetKey, h0, ih]

/-- A successful lookup means the key occurs in the list. -/
theorem mem_of_jsGetKey_some {l : List (String × α)} {p : String} {v : α}
    (h : jsGetKey l p = some v) : p ∈ l.map Prod.fst := by
  induction l with
  | nil => simp [jsGetKey] at h
  | cons hd tl ih =>
    obtain ⟨k0, v0⟩ := hd
    by_cases h0 : k0 = p
    · simp [h0]
    · rw [jsGetKey, if_neg h0] at h
      simp [ih h]

/-- The `files` array built by `walk` is exactly the listing-order
flattening of the tree, hashed entry by entry. -/
theorem walkList_files (hash : List Nat → String) (ex : List String) :
    ∀ (entries : List (String × FsEntry)) (pre : String) (acc : ScanResults),
      (walkList hash ex entries pre acc).files =
        acc.files ++ (flattenFiles ex entries pre).map
          (fun pc => ⟨pc.1, hash pc.2, pc.2.length⟩) := by
  intro entries pre acc
  induction entries, pre, acc using walkList.induct hash ex with
  | case1 pre acc => simp [walkList, flattenFiles]
  | case2 name c rest pre acc hm ih =>
    rw [walkList, flattenFiles]
    simp only [if_pos hm] at ih ⊢
    simpa using ih
  | case3 name c rest pre acc hm ih =>
    rw [walkList, flattenFiles]
    simp only [if_neg hm] at ih ⊢
    rw [ih]
    simp
  | case4 name sub rest pre acc ih1 ih2 =>
    rw [walkList, flattenFiles, ih2, ih1]
    simp

/-- The `checksums` object built by `walk`, provided the recorded paths
are fresh relative to the accumulator and mutually distinct (true of any
real directory tree, where sibling names are unique): every file path is
bound to `sha256:` plus the digest of its bytes, in listing order. -/
theorem walkList_checksums (hash : List Nat → String) (ex : List String) :
    ∀ (entries : List (String × FsEntry)) (pre : String) (acc : ScanResults),
      (∀ p ∈ (flattenFiles ex entries pre).map Prod.fst,
          jsGetKey acc.checksums p = none) →
      ((flattenFiles ex entries pre).map Prod.fst).Nodup →
      (walkList hash ex entries pre acc).checksums =
        acc.checksums ++ (flattenFiles ex entries pre).map
          (fun pc => (pc.1, "sha256:" ++ hash pc.2)) := by
  intro entries pre acc
  induction entries, pre, acc using walkList.induct hash ex with
  | case1 pre acc =>
    intro hfresh hnd
    simp [walkList, flattenFiles]
  | case2 name c rest pre acc hm ih =>
    intro hfresh hnd
    rw [flattenFiles, if_pos hm, List.nil_append] at hfresh hnd ⊢
    rw [walkList, if_pos hm]
    exact ih hfresh hnd
  | case3 name c rest pre acc hm ih =>
    intro hfresh hnd
    rw [flattenFiles, if_neg hm, List.singleton_append] at hfresh hnd ⊢
    rw [walkList, if_neg hm]
    have hfresh0 : jsGetKey acc.checksums (jsJoin pre name) = none :=
      hfresh _ (by simp)
    have hset := jsSetKey_fresh acc.checksums (jsJoin pre name)
      ("sha256:" ++ hash c) hfresh0
    simp only [List.map_cons, List.nodup_cons, List.mem_map] at hnd
    rw [ih ?_ hnd.2]
    · rw [hset]
      simp
    · intro p hp
      rw [hset, jsGetKey_append, hfresh p (by simp [hp])]
      have hne : jsJoin pre name ≠ p := by
        rintro rfl
        simp only [List.mem_map] at hp
        exact hnd.1 hp
      simp [jsGetKey, hne]
  | case4 name sub rest pre acc ih1 ih2 =>
    intro hfresh hnd
    rw [flattenFiles] at hfresh hnd ⊢
    simp only [List.map_append, List.nodup_append] at hnd
    simp only [List.map_append, List.mem_append] at hfresh
    rw [walkList]
    rw [ih2 ?_ hnd.2.1, ih1 ?_ hnd.1]
    · simp
    · intro p hp
      exact hfresh p (Or.inl hp)
    · intro p hp
      rw [ih1 (fun q hq => hfresh q (Or.inl hq)) hnd.1, jsGetKey_append,
        hfresh p (Or.inr hp)]
      have hnot : jsGetKey ((flattenFiles ex sub (jsJoin pre name)).map
          (fun pc => (pc.1, "sha256:" ++ hash pc.2))) p = none := by
        rw [jsGetKey_map_sha]
        cases hq : jsGetKey (flattenFiles ex sub (jsJoin pre name)) p
        · rfl
        · exact absurd hp (hnd.2.2 (mem_of_jsGetKey_some hq))
      rw [hnot]

/-- Lookup of a recorded checksum: under the path-uniqueness of a real
directory tree, each relative path maps to `sha256:` plus the digest of
exactly the bytes stored at that path. -/
theorem scanDirectory_checksum_lookup (hash : List Nat → String) (ex : List String)
    (entries : List (String × FsEntry))
    (hnd : ((flattenFiles ex entries "").map Prod.fst).Nodup) (p : String) :
    jsGetKey (scanDirectory hash entries "" ex).checksums p =
      (jsGetKey (flattenFiles ex entries "") p).map (fun c => "sha256:" ++ hash c) := by
  unfold scanDirectory
  rw [walkList_checksums hash ex entries ""
    { checksums := [], files := [], totalSize := 0, fileCount := 0 }
    (fun q _ => rfl) hnd]
  rw [List.nil_append, jsGetKey_map_sha]

/-- A stand-in digest function used by concrete examples (the theorems
above are generic in `hash`). -/
def hashLen : List Nat → String := fun c => toString c.length

/-- A root whose directory listing is not in sorted order. -/
def unsortedRoot : List (String × FsEntry) := [("b", .file [1]), ("a", .file [2])]

/-- C1 counterexample: `scanDirectory` applies no sorting — over a root
whose listing order is `b, a`, the files are hashed and recorded in the
order `b, a`, not in the lexicographically sorted order `a, b`. -/
theorem scanDirectory_not_sorted_counterexample :
    (scanDirectory hashLen unsortedRoot "" ["manifest.json"]).files.map FileInfo.path
        = ["b", "a"] ∧
      (["b", "a"] : List String) ≠ ["a", "b"] := by
  constructor
  · rw [show (scanDirectory hashLen unsortedRoot "" ["manifest.json"]).files =
        ((ScanResults.mk [] [] 0 0).files ++ (flattenFiles ["manifest.json"]
          unsortedRoot "").map (fun pc => ⟨pc.1, hashLen pc.2, pc.2.length⟩)) from
        walkList_files hashLen ["manifest.json"] unsortedRoot "" _]
    simp only [flattenFiles, unsortedRoot]
    decide
  · decide

/-- C1 amended: the traversal is depth-first in directory-listing
(`readdirSync`) order with no sorting applied at any level: the sequence
of recorded (and hashed) file paths equals the listing-order flattening
of the tree, which is the sorted-path order only when every directory
listing happens to be sorted. -/
theorem scanDirectory_listing_order (hash : List Nat → String) (ex : List String)
    (entries : List (String × FsEntry)) (basePath : String) :
    (scanDirectory hash entries basePath ex).files.map FileInfo.path =
      (flattenFiles ex entries basePath).map Prod.fst := by
  unfold scanDirectory
  rw [walkList_files]
  simp

/-- C2: determinism of the digest set — scanning two trees that store the
same bytes at the same relative paths (e.g. the same unchanged content
listed in different `readdirSync` orders on two runs) produces
extensionally equal `checksums` mappings.  The `Nodup` hypotheses hold
for any real directory tree, where sibling names are unique. -/
theorem scanDirectory_deterministic (hash : List Nat → String) (ex : List String)
    (fs1 fs2 : List (String × FsEntry))
    (h1 : ((flattenFiles ex fs1 "").map Prod.fst).Nodup)
    (h2 : ((flattenFiles ex fs2 "").map Prod.fst).Nodup)
    (hsame : ∀ p, jsGetKey (flattenFiles ex fs1 "") p =
      jsGetKey (flattenFiles ex fs2 "") p) (p : String) :
    jsGetKey (scanDirectory hash fs1 "" ex).checksums p =
      jsGetKey (scanDirectory hash fs2 "" ex).checksums p := by
  rw [scanDirectory_checksum_lookup hash ex fs1 h1 p,
    scanDirectory_checksum_lookup hash ex fs2 h2 p, hsame p]

/-- A two-file tree (one nested) and the same tree with its root listing
reordered, used by the C2 witness. -/
def rootAB : List (String × FsEntry) := [("a", .file [7]), ("b", .dir [("c", .file [9])])]

/-- `rootAB` with the two root entries swapped: same content, different
listing order. -/
def rootBA : List (String × FsEntry) := [("b", .dir [("c", .file [9])]), ("a", .file [7])]

theorem flatten_rootAB :
    flattenFiles ["manifest.json"] rootAB "" = [("a", [7]), ("b/c", [9])] := by
  rw [rootAB]
  simp only [flattenFiles]
  decide

theorem flatten_rootBA :
    flattenFiles ["manifest.json"] rootBA "" = [("b/c", [9]), ("a", [7])] := by
  rw [rootBA]
  simp only [flattenFiles]
  decide

/-- Witness for C2: the two listing orders of the same content give the
same digest for path `b/c`. -/
theorem scanDirectory_deterministic_witness :
    jsGetKey (scanDirectory hashLen rootAB "" ["manifest.json"]).checksums "b/c" =
      jsGetKey (scanDirectory hashLen rootBA "" ["manifest.json"]).checksums "b/c" := by
  refine scanDirectory_deterministic hashLen ["manifest.json"] rootAB rootBA ?_ ?_ ?_ "b/c"
  · rw [flatten_rootAB]; decide
  · rw [flatten_rootBA]; decide
  · intro p
    rw [flatten_rootAB, flatten_rootBA]
    by_cases ha : "a" = p
    · subst ha; decide
    · by_cases hb : "b/c" = p
      · subst hb; decide
      · simp [jsGetKey, ha, hb]

/-!
## Claim theorems about `generateVersion`
-/

/-- A list is a prefix of itself extended by anything. -/
theorem isPrefixOfChars_append (p l : List Char) :
    isPrefixOfChars p (p ++ l) = true := by
  induction p with
  | nil => rfl
  | cons c cs ih => simp [isPrefixOfChars, ih]

/-- A prefix occurrence is an occurrence. -/
theorem includesChars_of_prefix (sub l : List Char)
    (h : isPrefixOfChars sub l = true) : includesChars sub l = true := by
  cases l with
  | nil => simpa [includesChars] using h
  | cons c rest => simp [includesChars, h]

/-- `(pre ++ s).includes(pre)` is always true. -/
theorem jsIncludes_prefix (pre s : String) : jsIncludes (pre ++ s) pre = true := by
  unfold jsIncludes
  rw [String.data_append]
  exact includesChars_of_prefix _ _ (isPrefixOfChars_append _ _)

/-- The canonical tag for a patch written as a digit run, on the spec's
example date. -/
def todayTag (d : List Char) : String := "v2024.12.15." ++ ⟨d⟩

/-- The version regex matched against a canonical same-day tag captures
exactly the digit run after the last dot. -/
theorem matchPatchAt_todayTag (d : List Char) (hne : d ≠ [])
    (hd : ∀ c ∈ d, c.isDigit = true) :
    matchPatchAt ("v2024.12.15.".data ++ d) = some d := by
  rw [show "v2024.12.15.".data =
    'v' :: '2' :: '0' :: '2' :: '4' :: '.' :: '1' :: '2' :: '.' :: '1' :: '5' :: '.' :: []
    from rfl]
  have htake : d.takeWhile Char.isDigit = d := List.takeWhile_eq_self_iff.mpr hd
  rw [List.cons_append]
  rw [matchPatchAt]
  simp +decide only [List.cons_append, List.nil_append, List.takeWhile_cons,
    List.dropWhile_cons, htake, hne, if_true, if_false]

/-- `findPatch` on a nonempty list whose head position already matches. -/
theorem findPatch_of_matchAt {l d : List Char} (hl : l ≠ [])
    (h : matchPatchAt l = some d) : findPatch l = some d := by
  cases l with
  | nil => exact absurd rfl hl
  | cons c rest => rw [findPatch, h]

/-- The max-patch fold over canonical same-day tags computes the running
integer maximum of the parsed patch numbers. -/
theorem foldl_maxPatchStep_todayTags :
    ∀ (ds : List (List Char)),
      (∀ d ∈ ds, d ≠ [] ∧ ∀ c ∈ d, c.isDigit = true) →
      ∀ (m : Int),
        (ds.map todayTag).foldl maxPatchStep m =
          (ds.map digitsToNat).foldl
            (fun (m : Int) (p : Nat) => if (p : Int) > m then (p : Int) else m) m := by
  intro ds
  induction ds with
  | nil => intro hd m; rfl
  | cons d ds ih =>
    intro hd m
    have hhead := hd d (List.mem_cons_self d ds)
    have hfp : findPatch (todayTag d).data = some d := by
      have hdata : (todayTag d).data = "v2024.12.15.".data ++ d := by
        rw [todayTag, String.data_append]
      rw [hdata]
      exact findPatch_of_matchAt (by simp)
        (matchPatchAt_todayTag d hhead.1 hhead.2)
    rw [List.map_cons, List.map_cons, List.foldl_cons, List.foldl_cons]
    rw [show maxPatchStep m (todayTag d) =
        (if ((digitsToNat d : Nat) : Int) > m then ((digitsToNat d : Nat) : Int) else m)
      from by rw [maxPatchStep, hfp]]

    exact ih (fun x hx => hd x (List.mem_cons_of_mem d hx)) _

/-- The integer max fold started at a natural number agrees with the
natural-number max fold. -/
theorem intfold_eq_natfold (ps : List Nat) :
    ∀ (c : Nat),
      ps.foldl (fun (m : Int) (p : Nat) => if (p : Int) > m then (p : Int) else m)
          (c : Int) =
        ((ps.foldl Nat.max c : Nat) : Int) := by
  induction ps with
  | nil => intro c; rfl
  | cons p ps ih =>
    intro c
    rw [List.foldl_cons, List.foldl_cons]
    have hstep : (if ((p : Int) > (c : Int)) then (p : Int) else (c : Int)) =
        ((Nat.max c p : Nat) : Int) := by
      show _ = ((max c p : Nat) : Int)
      rw [Nat.max_def, apply_ite (fun n : Nat => (n : Int))]
      split <;> split <;> omega
    rw [hstep, ih]

/-- The max fold started at `-1` over a nonempty list of naturals is the
natural max fold started at `0`. -/
theorem intfold_neg_one (ps : List Nat) (hne : ps ≠ []) :
    ps.foldl (fun (m : Int) (p : Nat) => if (p : Int) > m then (p : Int) else m) (-1) =
      ((ps.foldl Nat.max 0 : Nat) : Int) := by
  cases ps with
  | nil => exact absurd rfl hne
  | cons p ps =>
    rw [List.foldl_cons, List.foldl_cons]
    have h1 : (if ((p : Int) > (-1 : Int)) then (p : Int) else (-1 : Int)) =
        ((p : Nat) : Int) := by
      rw [if_pos (by omega)]
    rw [h1, show Nat.max 0 p = p from by
      show max 0 p = p
      simp [Nat.max_def], intfold_eq_natfold]

/-- C5 counterexample: with existing same-day tags `v2024.12.15.0` and
`v2024.12.15.2`, the helper returns `2024.12.15.3` (one past the maximum),
while the smallest non-negative patch not already used is `1` — refuting
the claim's "smallest unused" rule. -/
theorem generateVersion_not_smallest_unused :
    generateVersion 2024 12 15 ["v2024.12.15.0", "v2024.12.15.2"] = "2024.12.15.3" ∧
      smallestUnusedPatch [0, 2] = 1 ∧
      ("2024.12.15.3" : String) ≠ "2024.12.15.1" := by
  refine ⟨by decide, by decide, by decide⟩

/-- C5 amended: for today's tags (the `v`-prefixed tags the repository
creates), `generateVersion` returns the date followed by one more than
the *maximum* patch among them, `0` when there are none — this equals the
smallest unused patch only when the used patches are gapless from `0`.
Stated on the spec's example date over any set of same-day tags with
digit-run patches. -/
theorem generateVersion_max_plus_one (ds : List (List Char))
    (hd : ∀ d ∈ ds, d ≠ [] ∧ ∀ c ∈ d, c.isDigit = true) :
    generateVersion 2024 12 15 (ds.map todayTag) =
      "2024.12.15." ++ toString (specNextPatch (ds.map digitsToNat)) := by
  cases ds with
  | nil => decide
  | cons d0 ds0 =>
    simp only [generateVersion,
      show (toString 2024 ++ "." ++ pad2 12 ++ "." ++ pad2 15 : String) = "2024.12.15"
        from by decide,
      show ("v" ++ "2024.12.15" ++ "." : String) = "v2024.12.15." from by decide]
    have hfilter : ((d0 :: ds0).map todayTag).filter
        (fun t => jsIncludes t "v2024.12.15.") = (d0 :: ds0).map todayTag := by
      rw [List.filter_eq_self]
      intro t ht
      obtain ⟨d, -, rfl⟩ := List.mem_map.mp ht
      rw [todayTag]
      exact jsIncludes_prefix "v2024.12.15." ⟨d⟩
    rw [hfilter, if_neg (by simp)]
    rw [foldl_maxPatchStep_todayTags (d0 :: ds0) hd (-1)]
    rw [intfold_neg_one _ (by simp)]
    rw [show ((((d0 :: ds0).map digitsToNat).foldl Nat.max 0 : Nat) : Int) + 1 =
        ((((d0 :: ds0).map digitsToNat).foldl Nat.max 0 + 1 : Nat) : Int)
      from by push_cast; ring]
    rw [show specNextPatch ((d0 :: ds0).map digitsToNat) =
        ((d0 :: ds0).map digitsToNat).foldl Nat.max 0 + 1 from rfl]
    rw [show ("2024.12.15" ++ "." : String) = "2024.12.15." from by decide]
    rfl

/-- Witness for the amended C5: the spec's own example, tags
`{v2024.12.15.0, v2024.12.15.1}`, yields `2024.12.15.2`. -/
theorem generateVersion_max_plus_one_witness :
    generateVersion 2024 12 15 ((([['0'], ['1']] : List (List Char))).map todayTag) =
      "2024.12.15." ++ toString (specNextPatch (([['0'], ['1']] : List (List Char)).map digitsToNat)) :=
  generateVersion_max_plus_one [['0'], ['1']] (by decide)

end Sdsa
